import Mathlib

/-!
Shallow embedding of the newscat HTML article extractor (packages `html`,
`model`, `util`) and proofs about its cleaner, chunk builder, link-density
map, cluster statistics, document loader, feed collection and cluster
container.

DOM trees are modelled as a nested inductive (`Node`), mirroring the
external `html.Node` type consumed by the source: a node kind, a `Data`
string (tag name for elements, text for text nodes), an attribute list and
a child list.  Node identity (Go pointers) is modelled by tree positions
(paths of child indices).  Go `int` counters that are only ever incremented
are modelled as `Nat`; Go bitmasks as `Nat` with `|||`/`&&&` and an
explicit and-not.
-/

namespace Newscat

/-- Node kinds of the external `html.Node` type. -/
inductive NType where
  | errorN | textN | documentN | elementN | commentN | doctypeN
deriving DecidableEq, Repr

/-- One `html.Attribute`: a key/value pair. -/
structure HAttr where
  key : String
  val : String
deriving DecidableEq, Repr

/-- A DOM node: kind, data (tag name or text), attributes, children. -/
inductive Node where
  | mk (ntype : NType) (data : String) (attr : List HAttr) (kids : List Node)

def Node.ntype : Node → NType
  | .mk t _ _ _ => t

def Node.data : Node → String
  | .mk _ d _ _ => d

def Node.attr : Node → List HAttr
  | .mk _ _ a _ => a

def Node.kids : Node → List Node
  | .mk _ _ _ ks => ks

/-- Paths of child indices; they model Go node pointers (node identity). -/
abbrev Path := List Nat

/-- Lowercased character list of a string (case-insensitive matching). -/
def lowerStr (s : String) : List Char :=
  s.toList.map Char.toLower

/-- `containsSub hay needle`: `needle` occurs as a contiguous sublist. -/
def containsSub (hay needle : List Char) : Bool :=
  hay.tails.any (fun t => needle.isPrefixOf t)

/-- Modelled from the spec: `util.NewRegexFromWords` (the `util` regex
source is not part of the provided files) builds a case-insensitive
regex matching any of the NAME_BLACKLIST words; the two regex-shaped
words `story[-_]?bar` and `story[-_]?feature` are expanded into their
three literal variants each. -/
def nameBlacklistWords : List (List Char) :=
  ["breadcrumb".toList, "byline".toList, "caption".toList, "comment".toList,
   "community".toList, "credit".toList, "description".toList, "email".toList,
   "foot".toList, "gallery".toList, "hide".toList, "infotext".toList,
   "photo".toList, "related".toList, "shares".toList, "social".toList,
   "storybar".toList, "story-bar".toList, "story_bar".toList,
   "storyfeature".toList, "story-feature".toList, "story_feature".toList]

/-- Modelled from the spec: `ignoreNames.In s` — some NAME_BLACKLIST word
occurs in `s` as a case-insensitive substring. -/
def inNameBlacklist (s : String) : Bool :=
  nameBlacklistWords.any (fun w => containsSub (lowerStr s) w)

/-- `display:` followed by whitespace then `none`, at the head of `l`. -/
def displayNoneAt (l : List Char) : Bool :=
  "display:".toList.isPrefixOf l &&
    "none".toList.isPrefixOf ((l.drop 8).dropWhile Char.isWhitespace)

/-- Modelled from the spec: `ignoreStyle.In s` — the case-insensitive
regex `display:\s*none` matches somewhere in `s`. -/
def inDisplayNone (s : String) : Bool :=
  (lowerStr s).tails.any displayNoneAt

/-- The tag names `Article.cleanBody` always removes
(`removeNode`, first switch group). -/
def structuralBlacklist : List String :=
  ["address", "audio", "button", "canvas", "caption", "fieldset",
   "figcaption", "figure", "footer", "form", "frame", "iframe",
   "map", "menu", "nav", "noscript", "object", "option", "output",
   "script", "select", "style", "svg", "textarea", "video"]

/-- `removeNode` from `Article.cleanBody`: should the element with this
tag, met at this recursion level, be removed? -/
def removeNode (data : String) (level : Nat) : Bool :=
  if data ∈ structuralBlacklist then true
  else if data = "table" then decide (level > 5)
  else false

mutual
/-- `Article.cleanBody`: remove unwanted element children of `n` (at
recursion level `level`) and recurse into surviving element children. -/
def cleanBody (n : Node) (level : Nat) : Node :=
  match n with
  | .mk t d a ks => .mk t d a (cleanKids ks level)

/-- The child loop of `Article.cleanBody`: element children are removed
when `removeNode` holds, cleaned recursively otherwise; other children
are kept untouched. -/
def cleanKids (ks : List Node) (level : Nat) : List Node :=
  match ks with
  | [] => []
  | c :: rest =>
    if c.ntype = .elementN then
      if removeNode c.data level then cleanKids rest level
      else cleanBody c (level + 1) :: cleanKids rest level
    else c :: cleanKids rest level
end

mutual
/-- No element child reachable by the cleaner's walk satisfies
`removeNode` at the level the cleaner would test it. -/
def cleanOk (n : Node) (level : Nat) : Bool :=
  match n with
  | .mk _ _ _ ks => cleanOkKids ks level

def cleanOkKids (ks : List Node) (level : Nat) : Bool :=
  match ks with
  | [] => true
  | c :: rest =>
    (if c.ntype = .elementN then !removeNode c.data level && cleanOk c (level + 1)
     else true) && cleanOkKids rest level
end

/-- The removal condition exactly as the claim states it (spec §4.3): tag
in STRUCTURAL_BLACKLIST, or a deeply nested table, or a blacklisted
`id`/`class`/`itemprop` attribute, or `display:none` style. -/
def specRemovalCond (n : Node) (level : Nat) : Bool :=
  decide (n.data ∈ structuralBlacklist)
  || (decide (n.data = "table") && decide (level > 5))
  || n.attr.any (fun a =>
      (decide (a.key = "id") || decide (a.key = "class") || decide (a.key = "itemprop"))
        && inNameBlacklist a.val)
  || n.attr.any (fun a => decide (a.key = "style") && inDisplayNone a.val)

/-- A `<div class="related">` element: hit by the NAME_BLACKLIST. -/
def exBadDiv : Node :=
  .mk .elementN "div" [⟨"class", "related"⟩] [.mk .textN "teaser" [] []]

/-- A body whose only child is `exBadDiv`. -/
def exBody : Node :=
  .mk .elementN "body" [] [exBadDiv]

/-- The count of letter codepoints in a string; `Char.isAlpha` models the
source's `unicode.IsLetter` test in `Article.countText`. -/
def letterCount (s : String) : Nat :=
  s.toList.countP Char.isAlpha

/-- Result of `Article.countText` on one subtree: the cumulative link /
non-link letter totals of the subtree root, and the map entries written
for every node of the subtree, keyed by path relative to the root. -/
structure CTRes where
  link : Nat
  norm : Nat
  entries : List (Path × Nat × Nat)
deriving DecidableEq, Repr

mutual
/-- `Article.countText`: cumulative letter counts inside / outside `<a>`
tags per node.  The `inside` flag is set once an `<a>` element is passed;
a text node's letters go to the link total when the flag is set and to
the normal total otherwise.  Each node's totals are recorded in the map
(`article.linkText` / `article.normText`), keyed here by path. -/
def countText (n : Node) (inside : Bool) : CTRes :=
  match n with
  | .mk t d _ ks =>
    let ins := inside || (decide (t = .elementN) && decide (d = "a"))
    let kr := countTextKids ks ins 0
    let cnt := if t = .textN then letterCount d else 0
    let lk := kr.link + (if ins then cnt else 0)
    let nm := kr.norm + (if ins then 0 else cnt)
    ⟨lk, nm, ([], lk, nm) :: kr.entries⟩

/-- The child loop of `Article.countText`; `i` is the index of the first
child in `ks` within its parent, used to key the map entries. -/
def countTextKids (ks : List Node) (inside : Bool) (i : Nat) : CTRes :=
  match ks with
  | [] => ⟨0, 0, []⟩
  | c :: rest =>
    let r1 := countText c inside
    let r2 := countTextKids rest inside (i + 1)
    ⟨r1.link + r2.link, r1.norm + r2.norm,
     (r1.entries.map (fun e => (i :: e.1, e.2))) ++ r2.entries⟩
end

/-- Lookup in the link-density map (Go map keyed by node pointer;
keys are modelled by paths). -/
def lookupEntry (es : List (Path × Nat × Nat)) (p : Path) : Option (Nat × Nat) :=
  match es with
  | [] => none
  | e :: rest => if e.1 = p then some e.2 else lookupEntry rest p

/-- The subtree of `n` at child-index path `p`. -/
def subtreeAt (n : Node) (p : Path) : Option Node :=
  match p with
  | [] => some n
  | i :: q =>
    match n.kids[i]? with
    | some c => subtreeAt c q
    | none => none

/-- Some proper ancestor of the node at `p` (within the walk rooted at
`n`) is an `<a>` element — the claim's bucket condition for letters. -/
def ancestorLink (n : Node) (p : Path) : Bool :=
  match p with
  | [] => false
  | i :: q =>
    match n.kids[i]? with
    | some c => (decide (n.ntype = .elementN) && decide (n.data = "a")) || ancestorLink c q
    | none => false

/-- The attribute test at the top of `Article.parseBody`: some
`id`/`class`/`itemprop` attribute matches `ignoreNames`, or some `style`
attribute matches `ignoreStyle`. -/
def ignoreAttrs (attrs : List HAttr) : Bool :=
  attrs.any (fun a =>
    ((decide (a.key = "id") || decide (a.key = "class") || decide (a.key = "itemprop"))
       && inNameBlacklist a.val)
    || (decide (a.key = "style") && inDisplayNone a.val))

mutual
/-- The concatenated text of all text nodes of a subtree, in order. -/
def textContent (n : Node) : String :=
  match n with
  | .mk t d _ ks => (if t = .textN then d else "") ++ textContentKids ks

def textContentKids (ks : List Node) : String :=
  match ks with
  | [] => ""
  | c :: rest => textContent c ++ textContentKids rest
end

/-- Modelled from the spec: a finalized `util.Text` has `words ≥ 1` iff
the text holds a whitespace-delimited run of letters/digits, i.e. some
alphanumeric character. -/
def hasWord (s : String) : Bool :=
  s.toList.any Char.isAlphanum

/-- A text chunk as far as the claims need it: the `Data` of its base
node, its text, and the ancestor bitmask recorded at creation. -/
structure Chunk where
  baseData : String
  text : String
  ancestors : Nat
deriving DecidableEq, Repr

/-- Modelled from the spec: `NewChunk` (its source file is not among the
provided files) builds a chunk from the node's concatenated subtree text,
fails (`EmptyChunk`, dropped locally) when that text has no words, and
records the chunk builder's current ancestor bitmask. -/
def newChunk (n : Node) (anc : Nat) : Option Chunk :=
  if hasWord (textContent n) then some ⟨n.data, textContent n, anc⟩ else none

/-- `AncestorArticle`, `AncestorAside`, `AncestorBlockquote`,
`AncestorList` — the bit assigned to a container tag (0 otherwise). -/
def containerMask (d : String) : Nat :=
  if d = "article" then 1
  else if d = "aside" then 2
  else if d = "blockquote" then 4
  else if d = "ul" ∨ d = "ol" then 8
  else 0

/-- Go's `x &^ y` (and-not) on the `Nat` model of bitmasks. -/
def andn (x y : Nat) : Nat :=
  Nat.bitwise (fun a b => a && !b) x y

/-- The heading/anchor tags that `Article.parseBody` converts to a chunk
without descending. -/
def headingTags : List String :=
  ["h1", "h2", "h3", "h4", "h5", "h6", "a"]

mutual
/-- `Article.parseBody`: walk the cleaned body and collect chunks.  The
mutable `article.ancestors` bitmask is threaded explicitly: the result is
the final bitmask and the chunks appended by this invocation. -/
def parseBody (n : Node) (anc : Nat) : Nat × List Chunk :=
  match n with
  | .mk t d attrs ks =>
    match t with
    | .elementN =>
      if ignoreAttrs attrs then (anc, [])
      else if d ∈ headingTags then
        (anc, (newChunk (.mk t d attrs ks) anc).toList)
      else
        let mask := andn (containerMask d) anc
        let r := parseKids ks (anc ||| mask)
        (andn r.1 mask, r.2)
    | .textN => (anc, (newChunk (.mk t d attrs ks) anc).toList)
    | _ => (anc, [])

/-- The child loop of `Article.parseBody`, threading the bitmask. -/
def parseKids (ks : List Node) (anc : Nat) : Nat × List Chunk :=
  match ks with
  | [] => (anc, [])
  | c :: rest =>
    let r1 := parseBody c anc
    let r2 := parseKids rest r1.1
    (r2.1, r1.2 ++ r2.2)
end

/-- One iteration of the chunk-linking loop in `Article.init`
(`Chunks[i].Prev = Chunks[i-1]` when `i > min`, `Chunks[i].Next =
Chunks[i+1]` when `i < max`); chunk pointers are modelled by indices,
the pair holds the `Prev` and `Next` fields of chunk `i`. -/
def linkStep (n : Nat) (arr : List (Option Nat × Option Nat)) (i : Nat) :
    List (Option Nat × Option Nat) :=
  let a1 := if 0 < i then arr.set i (some (i - 1), (arr.getD i (none, none)).2) else arr
  if i < n - 1 then a1.set i ((a1.getD i (none, none)).1, some (i + 1)) else a1

/-- The chunk-linking loop of `Article.init` over `n` chunks whose
`Prev`/`Next` fields start out nil. -/
def linkChunks (n : Nat) : List (Option Nat × Option Nat) :=
  (List.range n).foldl (linkStep n) (List.replicate n (none, none))

/-- The callback verdicts of the `iterateNode` traversal helper. -/
inductive IterRes where
  | next | skip | stop
deriving DecidableEq, Repr

mutual
/-- Modelled from the spec: `iterateNode` (its source file is not among
the provided files) performs a bounded depth-first search: the callback
is invoked on each node; `IterNext` descends into the children,
`IterSkip` skips them, `IterStop` aborts the whole traversal.  Returns
the final state and whether the traversal was stopped. -/
def iterNode {σ : Type} (f : σ → Node → σ × IterRes) (n : Node) (s : σ) : σ × Bool :=
  match n with
  | .mk _ _ _ ks =>
    let r := f s n
    match r.2 with
    | .stop => (r.1, true)
    | .skip => (r.1, false)
    | .next => iterKids f ks r.1

def iterKids {σ : Type} (f : σ → Node → σ × IterRes) (ks : List Node) (s : σ) : σ × Bool :=
  match ks with
  | [] => (s, false)
  | c :: rest =>
    let r := iterNode f c s
    if r.2 then (r.1, true) else iterKids f rest r.1
end

/-- The three searched-for nodes of `Document.init`:
`html`, `head`, `body`. -/
structure DocNodes where
  htmlN : Option Node
  headN : Option Node
  bodyN : Option Node

/-- The callback of `Document.init`'s first traversal: assign the
`html`/`head`/`body` fields, skipping the children of `head` and
`body`. -/
def docCb (s : DocNodes) (n : Node) : DocNodes × IterRes :=
  if n.data = "html" then ({ s with htmlN := some n }, .next)
  else if n.data = "body" then ({ s with bodyN := some n }, .skip)
  else if n.data = "head" then ({ s with headN := some n }, .skip)
  else (s, .next)

/-- The node search of `Document.init` run on the parsed root. -/
def findNodes (root : Node) : DocNodes :=
  (iterNode docCb root ⟨none, none, none⟩).1

/-- `Document.init` on an already parsed tree: fails iff one of the three
nodes was not found; `NewDocument` surfaces the failure and returns no
document. -/
def docInit (root : Node) : Except String (Node × Node × Node) :=
  match findNodes root with
  | ⟨some h, some hd, some b⟩ => .ok (h, hd, b)
  | _ => .error "Document missing <html>, <head> or <body>."

mutual
/-- Preorder listing of the nodes of a tree. -/
def preorder (n : Node) : List Node :=
  match n with
  | .mk _ _ _ ks => n :: preorderKids ks

def preorderKids (ks : List Node) : List Node :=
  match ks with
  | [] => []
  | c :: rest => preorder c ++ preorderKids rest
end

/-- One step of the attribute scan in the feed callback of
`Website.init`: update the last `href` value seen and the `hasAttr`
bitmask (bit 1 for `rel="alternate"`, bit 2 for
`type="application/rss+xml"`). -/
def scanF (p : String × Nat) (a : HAttr) : String × Nat :=
  if a.key = "rel" ∧ a.val = "alternate" then (p.1, p.2 ||| 1)
  else if a.key = "type" ∧ a.val = "application/rss+xml" then (p.1, p.2 ||| 2)
  else if a.key = "href" then (a.val, p.2)
  else p

/-- The attribute scan of the feed callback in `Website.init`. -/
def scanAttrs (attrs : List HAttr) : String × Nat :=
  attrs.foldl scanF ("", 0)

/-- The RSS feed callback of `Website.init`.  `parseLink` models
`NewLinkFromString` (its source file is not among the provided files):
it yields the parsed link, or nothing when parsing fails. -/
def feedCb (parseLink : String → Option String) (s : List String) (n : Node) :
    List String × IterRes :=
  if n.data = "link" then
    if (scanAttrs n.attr).2 = 3 ∧ ¬((scanAttrs n.attr).1 = "") then
      match parseLink (scanAttrs n.attr).1 with
      | some l => (s ++ [l], .next)
      | none => (s, .next)
    else (s, .next)
  else (s, .next)

/-- The `Feeds` list built by `Website.init` from the head node. -/
def feedsOf (parseLink : String → Option String) (head : Node) : List String :=
  (iterNode (feedCb parseLink) head []).1

/-- The claim's qualification of a head `<link>` element: a `rel`
attribute equal to `alternate`, a `type` attribute equal to
`application/rss+xml`, and a non-empty `href` attribute. -/
def specFeedQualifies (n : Node) : Bool :=
  decide (n.data = "link")
  && n.attr.any (fun a => decide (a.key = "rel") && decide (a.val = "alternate"))
  && n.attr.any (fun a => decide (a.key = "type") && decide (a.val = "application/rss+xml"))
  && n.attr.any (fun a => decide (a.key = "href") && decide (a.val ≠ ""))

/-- The value of the first `href` attribute in a list (empty if
absent). -/
def findHref (l : List HAttr) : String :=
  match l.find? (fun a => decide (a.key = "href")) with
  | some a => a.val
  | none => ""

/-- The value of an element's `href` attribute (empty if absent). -/
def specHref (n : Node) : String :=
  findHref n.attr

/-- The feed list as the claim describes it: one entry per qualifying
head `<link>` element whose `href` parses, in document order. -/
def specFeeds (parseLink : String → Option String) (head : Node) : List String :=
  (preorder head).filterMap
    (fun n => if specFeedQualifies n then parseLink (specHref n) else none)

/-- `TextStat` of the source: summed words, summed sentences, and the
number of contributing chunks. -/
structure TextStat where
  words : Nat
  sentences : Nat
  count : Nat
deriving DecidableEq, Repr

/-- The chunk data `Article.GetClusterStats` reads: the chunk's `Block`
node (a path, possibly absent) and its text's word and sentence
counts. -/
structure CChunk where
  block : Option Path
  words : Nat
  sentences : Nat
deriving DecidableEq, Repr

/-- The ancestor-stat map, keyed by node identity (paths). -/
def SMap : Type := Path → Option TextStat

/-- The parent of a node in the path model of node identity. -/
def parentOf (p : Path) : Option Path :=
  match p with
  | [] => none
  | _ :: _ => some p.dropLast

/-- Accumulate `(words, sentences, +1)` into the map entry of `p`
(insert a fresh entry when absent), as the first pass of
`Article.GetClusterStats` does. -/
def addStat (m : SMap) (p : Path) (w s : Nat) : SMap :=
  fun q =>
    if q = p then
      match m p with
      | some st => some ⟨st.words + w, st.sentences + s, st.count + 1⟩
      | none => some ⟨w, s, 1⟩
    else m q

/-- The ascent loop of the first pass: starting from a chunk's block,
ascend while the node exists and fewer than `maxAncestors` steps were
taken (`fuel` counts the remaining allowed steps, initially 3). -/
def pass1Go (m : SMap) (node : Option Path) (w s fuel : Nat) : SMap :=
  match fuel, node with
  | 0, _ => m
  | _, none => m
  | f + 1, some p => pass1Go (addStat m p w s) (parentOf p) w s f

/-- The first pass of `Article.GetClusterStats`: build the ancestor-stat
map over all chunks, ascending at most `maxAncestors = 3` steps. -/
def pass1 (chunks : List CChunk) : SMap :=
  chunks.foldl (fun m ch => pass1Go m ch.block ch.words ch.sentences 3) (fun _ => none)

/-- The ascent loop of the second pass: repeatedly move to the parent;
stop at the root or at the first parent without a map entry; take the
parent's stat whenever its count is strictly greater.  `fuel` bounds the
ascent; `node.length` steps always reach the root. -/
def pass2Go (m : SMap) (st : TextStat) (node : Path) (fuel : Nat) : TextStat :=
  match fuel with
  | 0 => st
  | f + 1 =>
    match parentOf node with
    | none => st
    | some q =>
      match m q with
      | none => st
      | some st2 => pass2Go m (if st.count < st2.count then st2 else st) q f

/-- `Article.GetClusterStats`: the cluster stat chosen for each chunk
(`none` for chunks without a block, which the loop skips). -/
def clusterStats (chunks : List CChunk) : CChunk → Option TextStat :=
  fun ch =>
    match ch.block with
    | none => none
    | some p =>
      match pass1 chunks p with
      | none => none
      | some st => some (pass2Go (pass1 chunks) st p p.length)

/-- The stats of the successive strict ancestors of `p` that have a map
entry, stopping at the first one without an entry (the chain the second
pass walks, per the claim). -/
def specChain (m : SMap) (p : Path) (fuel : Nat) : List TextStat :=
  match fuel with
  | 0 => []
  | f + 1 =>
    match parentOf p with
    | none => []
    | some q =>
      match m q with
      | none => []
      | some st => st :: specChain m q f

/-- The claim's description of the chosen stat: start from the block's
own entry and replace the current stat by an ancestor's exactly when
that ancestor's count is strictly greater (ties keep the deeper,
earlier-encountered stat). -/
def specChosen (m : SMap) (p : Path) : Option TextStat :=
  match m p with
  | none => none
  | some st0 =>
    some ((specChain m p p.length).foldl
      (fun best s => if best.count < s.count then s else best) st0)

/-- `model.Cluster`: chunks (modelled by ids) with scores and weights;
Go `float32` values are modelled by `ℚ`. -/
structure Cluster where
  chunks : List Nat
  scores : List ℚ
  weights : List ℚ
  changed : Bool
deriving DecidableEq, Repr

/-- `Cluster.Add`: with one extra argument append with weight 1, with two
append score and weight, otherwise panic (`none`) — the panic fires
before any slice is touched, so the cluster is left unchanged. -/
def Cluster.add (cl : Cluster) (chunk : Nat) (args : List ℚ) : Option Cluster :=
  match args with
  | [s, w] => some ⟨cl.chunks ++ [chunk], cl.scores ++ [s], cl.weights ++ [w], true⟩
  | [s] => some ⟨cl.chunks ++ [chunk], cl.scores ++ [s], cl.weights ++ [1], true⟩
  | _ => none

/-- The `insideLink` flag that `Article.countText` carries when it
reaches the node at path `p`, starting from flag `b` at the root. -/
def flagAt (t : Node) (b : Bool) (p : Path) : Bool :=
  match p with
  | [] => b
  | i :: q =>
    match t.kids[i]? with
    | some c => flagAt c (b || (decide (t.ntype = .elementN) && decide (t.data = "a"))) q
    | none => b

/-- Sum of the link components of the map entries of the first `k`
children of the node at `p`. -/
def kidLinkSum (es : List (Path × Nat × Nat)) (p : Path) (k : Nat) : Nat :=
  ((List.range k).map (fun j => ((lookupEntry es (p ++ [j])).getD (0, 0)).1)).sum

/-- Sum of the non-link components of the map entries of the first `k`
children of the node at `p`. -/
def kidNormSum (es : List (Path × Nat × Nat)) (p : Path) (k : Nat) : Nat :=
  ((List.range k).map (fun j => ((lookupEntry es (p ++ [j])).getD (0, 0)).2)).sum

/-- The feed entry contributed by one visited node, exactly as the
`Website.init` callback computes it. -/
def codeStep (parseLink : String → Option String) (n : Node) : Option String :=
  if n.data = "link" then
    if (scanAttrs n.attr).2 = 3 ∧ ¬((scanAttrs n.attr).1 = "") then
      parseLink (scanAttrs n.attr).1
    else none
  else none

/-- The value of the last `href` attribute in `l` (`h0` if none),
matching the attribute loop of `Website.init`. -/
def lastHref (l : List HAttr) (h0 : String) : String :=
  l.foldl (fun h a => if a.key = "href" then a.val else h) h0

/-- An `<article>` element holding one text node. -/
def exArticle : Node :=
  .mk .elementN "article" [] [.mk .textN "Hello world" [] []]

/-- A body holding a link with text and a loose text node. -/
def exCount : Node :=
  .mk .elementN "body" []
    [.mk .elementN "a" [] [.mk .textN "Hi" [] []], .mk .textN "Yo" [] []]

/-- A parsed root whose `<html>` holds a `<head>` but no `<body>`. -/
def exNoBody : Node :=
  .mk .documentN "" [] [.mk .elementN "html" [] [.mk .elementN "head" [] []]]

/-- A head holding one qualifying RSS `<link>` and one non-qualifying
`<link>`. -/
def exHead : Node :=
  .mk .elementN "head" []
    [.mk .elementN "link"
       [⟨"rel", "alternate"⟩, ⟨"type", "application/rss+xml"⟩,
        ⟨"href", "http://example.com/feed"⟩] [],
     .mk .elementN "link" [⟨"rel", "alternate"⟩] []]

/-- A chunk with a two-deep block, for the cluster-stat witness. -/
def exChunk : CChunk :=
  ⟨some [0, 0], 3, 1⟩

/-- A second chunk sharing an ancestor with `exChunk`. -/
def exChunk2 : CChunk :=
  ⟨some [0, 1], 2, 1⟩

/-- The chunk list for the cluster-stat witness. -/
def exChunks : List CChunk :=
  [exChunk, exChunk2]

/-- Soundness invariant of the `Document.init` search state: any node
already assigned carries the matching `Data`. -/
def DocInv (s : DocNodes) : Prop :=
  (∀ x, s.htmlN = some x → x.data = "html") ∧
  (∀ x, s.headN = some x → x.data = "head") ∧
  (∀ x, s.bodyN = some x → x.data = "body")

/-! ## Theorems -/

theorem cleanBody_ntype (n : Node) (l : Nat) : (cleanBody n l).ntype = n.ntype := by
  cases n; rfl

theorem cleanBody_data (n : Node) (l : Nat) : (cleanBody n l).data = n.data := by
  cases n; rfl

mutual
theorem cleanBody_idem_aux (n : Node) (l : Nat) :
    cleanBody (cleanBody n l) l = cleanBody n l := by
  match n with
  | .mk t d a ks =>
    show Node.mk t d a (cleanKids (cleanKids ks l) l) = Node.mk t d a (cleanKids ks l)
    exact congrArg _ (cleanKids_idem_aux ks l)

theorem cleanKids_idem_aux (ks : List Node) (l : Nat) :
    cleanKids (cleanKids ks l) l = cleanKids ks l := by
  match ks with
  | [] => rfl
  | c :: rest =>
    by_cases he : c.ntype = .elementN
    · by_cases hr : removeNode c.data l = true
      · have h1 : cleanKids (c :: rest) l = cleanKids rest l := by
          simp [cleanKids, he, hr]
        rw [h1]
        exact cleanKids_idem_aux rest l
      · have h1 : cleanKids (c :: rest) l = cleanBody c (l + 1) :: cleanKids rest l := by
          simp [cleanKids, he, hr]
        have he2 : (cleanBody c (l + 1)).ntype = NType.elementN := by
          rw [cleanBody_ntype]; exact he
        have h2 : cleanKids (cleanBody c (l + 1) :: cleanKids rest l) l
            = cleanBody (cleanBody c (l + 1)) (l + 1) :: cleanKids (cleanKids rest l) l := by
          simp [cleanKids, he2, cleanBody_data, hr]
        rw [h1, h2, cleanBody_idem_aux c (l + 1), cleanKids_idem_aux rest l]
    · have h1 : cleanKids (c :: rest) l = c :: cleanKids rest l := by
        simp [cleanKids, he]
      have h2 : cleanKids (c :: cleanKids rest l) l = c :: cleanKids (cleanKids rest l) l := by
        simp [cleanKids, he]
      rw [h1, h2, cleanKids_idem_aux rest l]
end

mutual
theorem cleanOk_clean_aux (n : Node) (l : Nat) : cleanOk (cleanBody n l) l = true := by
  match n with
  | .mk t d a ks =>
    show cleanOkKids (cleanKids ks l) l = true
    exact cleanOkKids_clean_aux ks l

theorem cleanOkKids_clean_aux (ks : List Node) (l : Nat) :
    cleanOkKids (cleanKids ks l) l = true := by
  match ks with
  | [] => rfl
  | c :: rest =>
    by_cases he : c.ntype = .elementN
    · by_cases hr : removeNode c.data l = true
      · have h1 : cleanKids (c :: rest) l = cleanKids rest l := by
          simp [cleanKids, he, hr]
        rw [h1]
        exact cleanOkKids_clean_aux rest l
      · have h1 : cleanKids (c :: rest) l = cleanBody c (l + 1) :: cleanKids rest l := by
          simp [cleanKids, he, hr]
        have he2 : (cleanBody c (l + 1)).ntype = NType.elementN := by
          rw [cleanBody_ntype]; exact he
        rw [h1]
        have hrw : (removeNode (cleanBody c (l + 1)).data l) = false := by
          rw [cleanBody_data]; exact eq_false_of_ne_true hr
        simp [cleanOkKids, he2, hrw, cleanOk_clean_aux c (l + 1),
          cleanOkKids_clean_aux rest l]
    · have h1 : cleanKids (c :: rest) l = c :: cleanKids rest l := by
        simp [cleanKids, he]
      rw [h1]
      simp [cleanOkKids, he, cleanOkKids_clean_aux rest l]
end

/-- C1 counterexample: the `<div class="related">` child of the body
satisfies the claim's removal condition (its `class` contains the
NAME_BLACKLIST word `related`), yet cleaning leaves the body unchanged —
the element survives, so the cleaner does not apply the attribute
blacklists. -/
theorem c1_counterexample :
    specRemovalCond exBadDiv 0 = true ∧ cleanBody exBody 0 = exBody ∧
      (cleanBody exBody 0).kids = [exBadDiv] :=
  ⟨by decide, ⟨rfl, rfl⟩⟩

/-- C1 (amended): the cleaner removes an element child exactly on the two
tag conditions — STRUCTURAL_BLACKLIST membership, or a `table` met at
recursion level greater than 5; after cleaning, no element reachable by
the cleaner's walk satisfies either condition at the level the cleaner
tests it.  The id/class/itemprop and style blacklists are not applied by
the cleaner. -/
theorem c1_amended_cleaned_body_tag_clean (n : Node) (l : Nat) :
    cleanOk (cleanBody n l) l = true :=
  cleanOk_clean_aux n l

/-- C6: the cleaner is idempotent — cleaning an already-cleaned tree (at
the same level) changes nothing. -/
theorem c6_cleaner_idempotent (n : Node) (l : Nat) :
    cleanBody (cleanBody n l) l = cleanBody n l :=
  cleanBody_idem_aux n l

/-- C2: whenever the chunk-building walk meets an element whose
`id`/`class`/`itemprop` matches the NAME_BLACKLIST or whose `style`
matches `display:\s*none`, it emits no chunk from the whole subtree and
leaves the ancestor bitmask untouched. -/
theorem c2_ignored_subtree_emits_nothing (n : Node) (anc : Nat)
    (he : n.ntype = NType.elementN) (hi : ignoreAttrs n.attr = true) :
    parseBody n anc = (anc, []) := by
  match n with
  | .mk t d attrs ks =>
    have ht : t = NType.elementN := he
    subst ht
    have hi' : ignoreAttrs attrs = true := hi
    simp [parseBody, hi']

/-- C2 witness: the `<div class="related">` element emits nothing. -/
theorem c2_witness :
    ignoreAttrs exBadDiv.attr = true ∧ parseBody exBadDiv 0 = (0, []) :=
  ⟨by decide, c2_ignored_subtree_emits_nothing exBadDiv 0 rfl (by decide)⟩

/-- C10: `Cluster.Add` with one extra argument appends with weight 1,
with two appends the given score and weight, with any other number of
arguments panics before touching the cluster; every non-panicking call
grows the three slices by one and keeps them equally long when they were
equally long. -/
theorem c10_cluster_add (cl : Cluster) (ch : Nat) (args : List ℚ) :
    (∀ s, args = [s] →
      cl.add ch args = some ⟨cl.chunks ++ [ch], cl.scores ++ [s], cl.weights ++ [1], true⟩) ∧
    (∀ s w, args = [s, w] →
      cl.add ch args = some ⟨cl.chunks ++ [ch], cl.scores ++ [s], cl.weights ++ [w], true⟩) ∧
    (args.length ≠ 1 → args.length ≠ 2 → cl.add ch args = none) ∧
    (∀ cl', cl.add ch args = some cl' →
      cl'.chunks.length = cl.chunks.length + 1 ∧
      cl'.scores.length = cl.scores.length + 1 ∧
      cl'.weights.length = cl.weights.length + 1 ∧
      ((cl.chunks.length = cl.scores.length ∧ cl.scores.length = cl.weights.length) →
        cl'.chunks.length = cl'.scores.length ∧ cl'.scores.length = cl'.weights.length)) := by
  refine ⟨?_, ?_, ?_, ?_⟩
  · rintro s rfl; rfl
  · rintro s w rfl; rfl
  · intro h1 h2
    match args with
    | [] => rfl
    | [s] => exact absurd rfl h1
    | [s, w] => exact absurd rfl h2
    | _ :: _ :: _ :: _ => rfl
  · intro cl' hcl
    match args with
    | [] => exact absurd hcl (by simp [Cluster.add])
    | [s] =>
      have : cl' = ⟨cl.chunks ++ [ch], cl.scores ++ [s], cl.weights ++ [1], true⟩ := by
        simpa [Cluster.add] using hcl.symm
      subst this
      refine ⟨by simp, by simp, by simp, fun hh => ?_⟩
      simp [hh.1, hh.2]
    | [s, w] =>
      have : cl' = ⟨cl.chunks ++ [ch], cl.scores ++ [s], cl.weights ++ [w], true⟩ := by
        simpa [Cluster.add] using hcl.symm
      subst this
      refine ⟨by simp, by simp, by simp, fun hh => ?_⟩
      simp [hh.1, hh.2]
    | _ :: _ :: _ :: _ => exact absurd hcl (by simp [Cluster.add])

/-- C10 witness: one-argument call appends with weight 1. -/
theorem c10_witness :
    Cluster.add ⟨[], [], [], false⟩ 5 [2] = some ⟨[5], [2], [1], true⟩ :=
  (c10_cluster_add ⟨[], [], [], false⟩ 5 [2]).1 2 rfl

theorem testBit_andn (x y i : Nat) : (andn x y).testBit i = (x.testBit i && !y.testBit i) :=
  Nat.testBit_bitwise (by rfl) x y i

theorem andn_restore (a m : Nat) (hd : ∀ i, m.testBit i = true → a.testBit i = false) :
    andn (a ||| m) m = a := by
  apply Nat.eq_of_testBit_eq
  intro i
  rw [testBit_andn, Nat.testBit_lor]
  cases hm : m.testBit i with
  | true => simp [hd i hm]
  | false => simp

theorem andn_bit_disj (x a i : Nat) (h : (andn x a).testBit i = true) :
    a.testBit i = false := by
  rw [testBit_andn] at h
  simp at h
  exact h.2

theorem lor_mask_super (m a i : Nat) (h : m.testBit i = true) :
    (a ||| andn m a).testBit i = true := by
  rw [Nat.testBit_lor, testBit_andn]
  cases ha : a.testBit i <;> simp [h, ha]

theorem land_of_superset (x m : Nat) (h : ∀ i, m.testBit i = true → x.testBit i = true) :
    x &&& m = m := by
  apply Nat.eq_of_testBit_eq
  intro i
  rw [Nat.testBit_land]
  cases hm : m.testBit i with
  | true => simp [h i hm]
  | false => simp

mutual
theorem parseBody_aux (n : Node) (a : Nat) :
    (parseBody n a).1 = a ∧
      ∀ c ∈ (parseBody n a).2, ∀ i, a.testBit i = true → c.ancestors.testBit i = true := by
  match n with
  | .mk t d attrs ks =>
    match t with
    | .elementN =>
      by_cases hig : ignoreAttrs attrs = true
      · constructor
        · simp [parseBody, hig]
        · intro c hc
          simp [parseBody, hig] at hc
      · by_cases hh : d ∈ headingTags
        · constructor
          · simp [parseBody, hig, hh]
          · intro c hc i hai
            simp only [parseBody, if_neg hig, if_pos hh] at hc
            unfold newChunk at hc
            by_cases hw : hasWord (textContent (.mk .elementN d attrs ks)) = true
            · simp [hw] at hc
              rw [hc]
              exact hai
            · simp [hw] at hc
        · have hks := parseKids_aux ks (a ||| andn (containerMask d) a)
          constructor
          · simp only [parseBody, if_neg hig, if_neg hh]
            rw [hks.1]
            exact andn_restore a (andn (containerMask d) a)
              (fun i hi => andn_bit_disj (containerMask d) a i hi)
          · intro c hc i hai
            simp only [parseBody, if_neg hig, if_neg hh] at hc
            refine hks.2 c hc i ?_
            rw [Nat.testBit_lor, hai]
            rfl
    | .textN =>
      constructor
      · simp [parseBody]
      · intro c hc i hai
        simp only [parseBody] at hc
        unfold newChunk at hc
        by_cases hw : hasWord (textContent (.mk .textN d attrs ks)) = true
        · simp [hw] at hc
          rw [hc]
          exact hai
        · simp [hw] at hc
    | .errorN => exact ⟨rfl, by intro c hc; simp [parseBody] at hc⟩
    | .documentN => exact ⟨rfl, by intro c hc; simp [parseBody] at hc⟩
    | .commentN => exact ⟨rfl, by intro c hc; simp [parseBody] at hc⟩
    | .doctypeN => exact ⟨rfl, by intro c hc; simp [parseBody] at hc⟩

theorem parseKids_aux (ks : List Node) (a : Nat) :
    (parseKids ks a).1 = a ∧
      ∀ c ∈ (parseKids ks a).2, ∀ i, a.testBit i = true → c.ancestors.testBit i = true := by
  match ks with
  | [] => exact ⟨rfl, by intro c hc; simp [parseKids] at hc⟩
  | k :: rest =>
    have h1 := parseBody_aux k a
    have h2 := parseKids_aux rest (parseBody k a).1
    constructor
    · show (parseKids rest (parseBody k a).1).1 = a
      rw [h2.1, h1.1]
    · intro c hc i hai
      have hc' : c ∈ (parseBody k a).2 ++ (parseKids rest (parseBody k a).1).2 := hc
      rcases List.mem_append.mp hc' with hm | hm
      · exact h1.2 c hm i hai
      · refine h2.2 c hm i ?_
        rw [h1.1]
        exact hai
end

/-- C4: the ancestor bitmask is restored when the walker leaves any node
(so a bit set for a container is cleared on the way out, and an inner
container of a kind already set never clears the outer bit); every chunk
emitted inside a visited subtree keeps all bits that were set on entry;
and for an element of container kind (article/aside/blockquote/ul/ol)
that is walked (not attribute-skipped), every chunk emitted from its
subtree carries that container's bit. -/
theorem c4_ancestor_bits (n : Node) (a : Nat) :
    (parseBody n a).1 = a ∧
    (∀ c ∈ (parseBody n a).2, ∀ i, a.testBit i = true → c.ancestors.testBit i = true) ∧
    (∀ m, n.ntype = NType.elementN → ignoreAttrs n.attr = false →
      containerMask n.data = m → m ≠ 0 →
      ∀ c ∈ (parseBody n a).2, c.ancestors &&& m = m) := by
  refine ⟨(parseBody_aux n a).1, (parseBody_aux n a).2, ?_⟩
  intro m he hig hcm hm0 c hc
  match n with
  | .mk t d attrs ks =>
    have ht : t = NType.elementN := he
    subst ht
    have hig' : ignoreAttrs attrs = false := hig
    have hcm' : containerMask d = m := hcm
    have hd : d = "article" ∨ d = "aside" ∨ d = "blockquote" ∨ (d = "ul" ∨ d = "ol") := by
      unfold containerMask at hcm'
      split_ifs at hcm' with h1 h2 h3 h4
      · exact Or.inl h1
      · exact Or.inr (Or.inl h2)
      · exact Or.inr (Or.inr (Or.inl h3))
      · exact Or.inr (Or.inr (Or.inr h4))
      · exact absurd hcm'.symm hm0
    have hh : d ∉ headingTags := by
      rcases hd with h | h | h | h | h <;> simp [headingTags, h]
    have hig2 : ¬(ignoreAttrs attrs = true) := by simp [hig']
    simp only [parseBody, if_neg hig2, if_neg hh] at hc
    have hks := parseKids_aux ks (a ||| andn (containerMask d) a)
    refine land_of_superset c.ancestors m ?_
    intro i hmi
    refine hks.2 c hc i ?_
    rw [hcm']
    exact lor_mask_super m a i hmi

/-- C4 witness: the text chunk inside an `<article>` carries bit
`AncestorArticle`, and the walk restores the mask. -/
theorem c4_witness :
    (parseBody exArticle 0).1 = 0 ∧
      ∀ c ∈ (parseBody exArticle 0).2, c.ancestors &&& 1 = 1 :=
  ⟨(c4_ancestor_bits exArticle 0).1,
   (c4_ancestor_bits exArticle 0).2.2 1 rfl (by decide) (by decide) (by decide)⟩

theorem linkStep_length (n : Nat) (arr : List (Option Nat × Option Nat)) (i : Nat) :
    (linkStep n arr i).length = arr.length := by
  simp only [linkStep]
  split_ifs <;> simp [List.length_set]

theorem linkStep_getElem_ne (n : Nat) (arr : List (Option Nat × Option Nat)) (i j : Nat)
    (hij : j ≠ i) : (linkStep n arr i)[j]? = arr[j]? := by
  simp only [linkStep]
  split_ifs <;> simp [List.getElem?_set_ne (Ne.symm hij)]

theorem linkStep_getElem_self (n : Nat) (arr : List (Option Nat × Option Nat)) (i : Nat)
    (hsz : arr.length = n) (hi : i < n) (hcur : arr[i]? = some (none, none)) :
    (linkStep n arr i)[i]? =
      some (if i = 0 then none else some (i - 1), if i = n - 1 then none else some (i + 1)) := by
  have hlt : i < arr.length := by omega
  have hget : arr.getD i (none, none) = ((none : Option Nat), (none : Option Nat)) := by
    rw [List.getD_eq_getElem?_getD, hcur]
    rfl
  simp only [linkStep, hget]
  rcases Nat.eq_zero_or_pos i with hz | hp
  · subst hz
    simp only [Nat.lt_irrefl, if_false, if_neg (by omega : ¬ (0:Nat) < 0)]
    by_cases hn : (0:Nat) < n - 1
    · rw [if_pos hn]
      rw [List.getD_eq_getElem?_getD, hcur]
      rw [List.getElem?_set_self (by omega)]
      have : n - 1 ≠ 0 := by omega
      simp [show ¬ (0 = n - 1) from by omega]
    · rw [if_neg hn]
      rw [hcur]
      have h1 : n = 1 := by omega
      simp [h1]
  · rw [if_pos hp]
    have hset1 : (arr.set i (some (i - 1), (none : Option Nat)))[i]? =
        some (some (i - 1), none) := List.getElem?_set_self (by omega)
    by_cases hn : i < n - 1
    · rw [if_pos hn]
      rw [List.getD_eq_getElem?_getD, hset1]
      rw [List.getElem?_set_self (by simp [List.length_set]; omega)]
      simp [show i ≠ 0 from by omega, show ¬ (i = n - 1) from by omega]
    · rw [if_neg hn]
      rw [hset1]
      rw [if_neg (show ¬ i = 0 from by omega), if_pos (show i = n - 1 from by omega)]

theorem link_fold (n : Nat) (l : List Nat) :
    ∀ (arr : List (Option Nat × Option Nat)), arr.length = n → l.Nodup →
      (∀ j ∈ l, j < n) → (∀ j ∈ l, arr[j]? = some (none, none)) →
      ∀ i, i < n →
        (l.foldl (linkStep n) arr)[i]? =
          if i ∈ l then
            some (if i = 0 then none else some (i - 1), if i = n - 1 then none else some (i + 1))
          else arr[i]? := by
  induction l with
  | nil =>
    intro arr _ _ _ _ i _
    simp
  | cons j l' ih =>
    intro arr hsz hnd hbound hun i hi
    simp only [List.foldl_cons]
    have hjn : j < n := hbound j (List.mem_cons_self j l')
    have hszs : (linkStep n arr j).length = n := by rw [linkStep_length]; exact hsz
    have hnd' : l'.Nodup := (List.nodup_cons.mp hnd).2
    have hjnot : j ∉ l' := (List.nodup_cons.mp hnd).1
    have hun' : ∀ k ∈ l', (linkStep n arr j)[k]? = some (none, none) := by
      intro k hk
      rw [linkStep_getElem_ne n arr j k (fun h => hjnot (h ▸ hk))]
      exact hun k (List.mem_cons_of_mem _ hk)
    have hb' : ∀ k ∈ l', k < n := fun k hk => hbound k (List.mem_cons_of_mem _ hk)
    rw [ih (linkStep n arr j) hszs hnd' hb' hun' i hi]
    by_cases hil : i ∈ l'
    · simp [hil, List.mem_cons]
    · by_cases hij : i = j
      · subst hij
        rw [linkStep_getElem_self n arr i hsz hi (hun i (List.mem_cons_self i l'))]
        simp [hil]
      · rw [linkStep_getElem_ne n arr j i hij]
        simp [hij, hil, List.mem_cons]

/-- C8: after the linking loop of `Article.init`, chunk `i` points back to
chunk `i-1` (`none` for the first chunk) and forward to chunk `i+1`
(`none` for the last chunk); chunk pointers are modelled by indices. -/
theorem c8_chunk_chain (n i : Nat) (h : i < n) :
    (linkChunks n)[i]? =
      some (if i = 0 then none else some (i - 1), if i = n - 1 then none else some (i + 1)) := by
  unfold linkChunks
  rw [link_fold n (List.range n) (List.replicate n (none, none)) (by simp) (List.nodup_range n)
      (fun j hj => List.mem_range.mp hj)
      (fun j hj => by rw [List.getElem?_replicate]; simp [List.mem_range.mp hj]) i h]
  simp [List.mem_range, h]

/-- C8 witness: with three chunks, the middle chunk points to both
neighbours. -/
theorem c8_witness : (linkChunks 3)[1]? = some (some 0, some 2) := by
  have := c8_chunk_chain 3 1 (by decide)
  simpa using this

theorem docCb_inv (s : DocNodes) (n : Node) (h : DocInv s) : DocInv (docCb s n).1 := by
  obtain ⟨h1, h2, h3⟩ := h
  unfold docCb
  split_ifs with hh hb hhd
  · refine ⟨?_, h2, h3⟩
    intro x hx
    cases hx
    exact hh
  · refine ⟨h1, h2, ?_⟩
    intro x hx
    cases hx
    exact hb
  · refine ⟨h1, ?_, h3⟩
    intro x hx
    cases hx
    exact hhd
  · exact ⟨h1, h2, h3⟩

mutual
theorem iterNode_docInv (n : Node) (s : DocNodes) (h : DocInv s) :
    DocInv (iterNode docCb n s).1 := by
  match n with
  | .mk t d attrs ks =>
    have hcb := docCb_inv s (.mk t d attrs ks) h
    show DocInv (match (docCb s (.mk t d attrs ks)).2 with
      | .stop => ((docCb s (.mk t d attrs ks)).1, true)
      | .skip => ((docCb s (.mk t d attrs ks)).1, false)
      | .next => iterKids docCb ks (docCb s (.mk t d attrs ks)).1).1
    cases (docCb s (.mk t d attrs ks)).2 with
    | stop => exact hcb
    | skip => exact hcb
    | next => exact iterKids_docInv ks _ hcb

theorem iterKids_docInv (ks : List Node) (s : DocNodes) (h : DocInv s) :
    DocInv (iterKids docCb ks s).1 := by
  match ks with
  | [] => exact h
  | c :: rest =>
    have h1 := iterNode_docInv c s h
    show DocInv (if (iterNode docCb c s).2 = true then ((iterNode docCb c s).1, true)
      else iterKids docCb rest (iterNode docCb c s).1).1
    by_cases hstop : (iterNode docCb c s).2 = true
    · rw [if_pos hstop]
      exact h1
    · rw [if_neg hstop]
      exact iterKids_docInv rest _ h1
end

/-- C7: `Document.init` (on an already-parsed tree) fails with the
`MalformedDocument` error exactly when the bounded depth-first search
left one of the `html`, `head`, `body` slots unassigned; on failure no
document value is produced, and on success the three returned nodes are
exactly the found ones and carry the matching tag data. -/
theorem c7_malformed_document (root : Node) :
    (docInit root = Except.error "Document missing <html>, <head> or <body>." ↔
      ((findNodes root).htmlN.isNone = true ∨ (findNodes root).headN.isNone = true ∨
        (findNodes root).bodyN.isNone = true)) ∧
    (∀ h hd b, docInit root = Except.ok (h, hd, b) →
      (findNodes root).htmlN = some h ∧ (findNodes root).headN = some hd ∧
      (findNodes root).bodyN = some b ∧
      h.data = "html" ∧ hd.data = "head" ∧ b.data = "body") := by
  have hstart : DocInv ⟨none, none, none⟩ := by
    unfold DocInv
    refine ⟨?_, ?_, ?_⟩ <;> exact fun x hx => by cases hx
  have hinv : DocInv (findNodes root) := by
    unfold findNodes
    exact iterNode_docInv root ⟨none, none, none⟩ hstart
  rcases hfn : findNodes root with ⟨o1, o2, o3⟩
  rw [hfn] at hinv
  match o1, o2, o3 with
  | some x1, some x2, some x3 =>
    constructor
    · constructor
      · intro he
        have : docInit root = Except.ok (x1, x2, x3) := by
          unfold docInit
          rw [hfn]
        rw [this] at he
        cases he
      · intro hor
        rcases hor with h | h | h <;> simp at h
    · intro h hd b hok
      have : docInit root = Except.ok (x1, x2, x3) := by
        unfold docInit
        rw [hfn]
      rw [this] at hok
      cases hok
      exact ⟨rfl, rfl, rfl, hinv.1 x1 rfl, hinv.2.1 x2 rfl, hinv.2.2 x3 rfl⟩
  | none, o2, o3 =>
    have herr : docInit root = Except.error "Document missing <html>, <head> or <body>." := by
      unfold docInit
      rw [hfn]
    constructor
    · exact ⟨fun _ => Or.inl rfl, fun _ => herr⟩
    · intro h hd b hok
      rw [herr] at hok
      cases hok
  | some x1, none, o3 =>
    have herr : docInit root = Except.error "Document missing <html>, <head> or <body>." := by
      unfold docInit
      rw [hfn]
    constructor
    · exact ⟨fun _ => Or.inr (Or.inl rfl), fun _ => herr⟩
    · intro h hd b hok
      rw [herr] at hok
      cases hok
  | some x1, some x2, none =>
    have herr : docInit root = Except.error "Document missing <html>, <head> or <body>." := by
      unfold docInit
      rw [hfn]
    constructor
    · exact ⟨fun _ => Or.inr (Or.inr rfl), fun _ => herr⟩
    · intro h hd b hok
      rw [herr] at hok
      cases hok

/-- C7 witness: a parsed tree without a `<body>` makes `Document.init`
fail with the `MalformedDocument` error. -/
theorem c7_witness :
    docInit exNoBody = Except.error "Document missing <html>, <head> or <body>." :=
  (c7_malformed_document exNoBody).1.mpr (by decide)

theorem feedCb_next (pl : String → Option String) (s : List String) (n : Node) :
    (feedCb pl s n).2 = IterRes.next := by
  unfold feedCb
  split_ifs
  · cases pl (scanAttrs n.attr).1 <;> rfl
  · rfl
  · rfl

theorem feedCb_state (pl : String → Option String) (s : List String) (n : Node) :
    (feedCb pl s n).1 = s ++ (codeStep pl n).toList := by
  unfold feedCb codeStep
  split_ifs
  · cases pl (scanAttrs n.attr).1 <;> simp
  · simp
  · simp

mutual
theorem iterNode_feed (pl : String → Option String) (n : Node) (s : List String) :
    iterNode (feedCb pl) n s =
      ((preorder n).foldl (fun acc nd => (feedCb pl acc nd).1) s, false) := by
  match n with
  | .mk t d a ks =>
    have hstep : iterNode (feedCb pl) (.mk t d a ks) s
        = iterKids (feedCb pl) ks (feedCb pl s (.mk t d a ks)).1 := by
      simp only [iterNode, feedCb_next]
    rw [hstep, iterKids_feed pl ks]
    simp [preorder]

theorem iterKids_feed (pl : String → Option String) (ks : List Node) :
    ∀ s, iterKids (feedCb pl) ks s =
      ((preorderKids ks).foldl (fun acc nd => (feedCb pl acc nd).1) s, false) := by
  match ks with
  | [] =>
    intro s
    simp [iterKids, preorderKids]
  | c :: rest =>
    intro s
    have h1 := iterNode_feed pl c s
    have hstep : iterKids (feedCb pl) (c :: rest) s
        = if (iterNode (feedCb pl) c s).2 = true then ((iterNode (feedCb pl) c s).1, true)
          else iterKids (feedCb pl) rest (iterNode (feedCb pl) c s).1 := by
      simp only [iterKids]
    rw [hstep, h1]
    simp only [Bool.false_eq_true, if_false]
    rw [iterKids_feed pl rest]
    simp [preorderKids, List.foldl_append]
end

theorem feed_fold (pl : String → Option String) (l : List Node) :
    ∀ acc, l.foldl (fun acc nd => (feedCb pl acc nd).1) acc
      = acc ++ l.filterMap (codeStep pl) := by
  induction l with
  | nil => intro acc; simp
  | cons nd rest ih =>
    intro acc
    simp only [List.foldl_cons]
    rw [feedCb_state, ih]
    cases h : codeStep pl nd <;> simp [List.filterMap_cons, h]

theorem scan_snd_bit0 (l : List HAttr) :
    ∀ p : String × Nat, ((l.foldl scanF p).2).testBit 0
      = (p.2.testBit 0 ||
          l.any (fun a => decide (a.key = "rel") && decide (a.val = "alternate"))) := by
  induction l with
  | nil => intro p; simp
  | cons a rest ih =>
    intro p
    simp only [List.foldl_cons, List.any_cons]
    by_cases h1 : a.key = "rel" ∧ a.val = "alternate"
    · have hstep : scanF p a = (p.1, p.2 ||| 1) := by unfold scanF; rw [if_pos h1]
      have hrel : (decide (a.key = "rel") && decide (a.val = "alternate")) = true := by
        simp [h1.1, h1.2]
      rw [hstep, ih, hrel]
      simp [Nat.testBit_lor]
    · have hrel : (decide (a.key = "rel") && decide (a.val = "alternate")) = false := by
        rcases not_and_or.mp h1 with h | h <;> simp [h]
      rw [hrel]
      by_cases h2 : a.key = "type" ∧ a.val = "application/rss+xml"
      · have hstep : scanF p a = (p.1, p.2 ||| 2) := by
          unfold scanF; rw [if_neg h1, if_pos h2]
        rw [hstep, ih]
        simp [Nat.testBit_lor]
      · by_cases h3 : a.key = "href"
        · have hstep : scanF p a = (a.val, p.2) := by
            unfold scanF; rw [if_neg h1, if_neg h2, if_pos h3]
          rw [hstep, ih]
          simp
        · have hstep : scanF p a = p := by
            unfold scanF; rw [if_neg h1, if_neg h2, if_neg h3]
          rw [hstep, ih]
          simp

theorem scan_snd_bit1 (l : List HAttr) :
    ∀ p : String × Nat, ((l.foldl scanF p).2).testBit 1
      = (p.2.testBit 1 ||
          l.any (fun a => decide (a.key = "type") && decide (a.val = "application/rss+xml"))) := by
  induction l with
  | nil => intro p; simp
  | cons a rest ih =>
    intro p
    simp only [List.foldl_cons, List.any_cons]
    by_cases h2 : a.key = "type" ∧ a.val = "application/rss+xml"
    · have h1 : ¬(a.key = "rel" ∧ a.val = "alternate") := by
        rintro ⟨hk, _⟩
        rw [hk] at h2
        exact absurd h2.1 (by decide)
      have hstep : scanF p a = (p.1, p.2 ||| 2) := by
        unfold scanF; rw [if_neg h1, if_pos h2]
      have htyp : (decide (a.key = "type") && decide (a.val = "application/rss+xml")) = true := by
        simp [h2.1, h2.2]
      have h21 : Nat.testBit 2 1 = true := by decide
      rw [hstep, ih, htyp]
      simp [Nat.testBit_lor, h21]
    · have htyp : (decide (a.key = "type") && decide (a.val = "application/rss+xml")) = false := by
        rcases not_and_or.mp h2 with h | h <;> simp [h]
      rw [htyp]
      by_cases h1 : a.key = "rel" ∧ a.val = "alternate"
      · have hstep : scanF p a = (p.1, p.2 ||| 1) := by unfold scanF; rw [if_pos h1]
        have h11 : Nat.testBit 1 1 = false := by decide
        rw [hstep, ih]
        simp [Nat.testBit_lor, h11]
      · by_cases h3 : a.key = "href"
        · have hstep : scanF p a = (a.val, p.2) := by
            unfold scanF; rw [if_neg h1, if_neg h2, if_pos h3]
          rw [hstep, ih]
          simp
        · have hstep : scanF p a = p := by
            unfold scanF; rw [if_neg h1, if_neg h2, if_neg h3]
          rw [hstep, ih]
          simp

theorem scan_snd_lt (l : List HAttr) :
    ∀ p : String × Nat, p.2 < 4 → (l.foldl scanF p).2 < 4 := by
  induction l with
  | nil => intro p hp; exact hp
  | cons a rest ih =>
    intro p hp
    simp only [List.foldl_cons]
    unfold scanF
    split_ifs
    · refine ih _ ?_
      show p.2 ||| 1 < 4
      exact Nat.or_lt_two_pow (n := 2) hp (by decide)
    · refine ih _ ?_
      show p.2 ||| 2 < 4
      exact Nat.or_lt_two_pow (n := 2) hp (by decide)
    · exact ih _ hp
    · exact ih _ hp

theorem eq_three_iff (x : Nat) (hx : x < 4) :
    x = 3 ↔ (x.testBit 0 = true ∧ x.testBit 1 = true) := by
  interval_cases x <;> decide

theorem scan_fst (l : List HAttr) :
    ∀ p : String × Nat, (l.foldl scanF p).1 = lastHref l p.1 := by
  induction l with
  | nil => intro p; rfl
  | cons a rest ih =>
    intro p
    simp only [List.foldl_cons, lastHref, List.foldl_cons]
    unfold scanF
    by_cases h1 : a.key = "rel" ∧ a.val = "alternate"
    · rw [if_pos h1]
      have : ¬(a.key = "href") := by rw [h1.1]; decide
      rw [if_neg this]
      exact ih _
    · rw [if_neg h1]
      by_cases h2 : a.key = "type" ∧ a.val = "application/rss+xml"
      · rw [if_pos h2]
        have : ¬(a.key = "href") := by rw [h2.1]; decide
        rw [if_neg this]
        exact ih _
      · rw [if_neg h2]
        by_cases h3 : a.key = "href"
        · rw [if_pos h3, if_pos h3]
          exact ih _
        · rw [if_neg h3, if_neg h3]
          exact ih _

theorem lastHref_of_no (l : List HAttr) :
    ∀ h0, (∀ a ∈ l, ¬(a.key = "href")) → lastHref l h0 = h0 := by
  induction l with
  | nil => intro h0 _; rfl
  | cons a rest ih =>
    intro h0 h
    simp only [lastHref, List.foldl_cons]
    rw [if_neg (h a (List.mem_cons_self a rest))]
    exact ih h0 (fun b hb => h b (List.mem_cons_of_mem a hb))

theorem countP_zero_no_href (l : List HAttr)
    (h : l.countP (fun a => decide (a.key = "href")) = 0) :
    ∀ a ∈ l, ¬(a.key = "href") := by
  intro a ha
  have := List.countP_eq_zero.mp h a ha
  simpa using this

theorem countP_cons_href (a : HAttr) (rest : List HAttr) :
    (a :: rest).countP (fun x => decide (x.key = "href"))
      = rest.countP (fun x => decide (x.key = "href"))
        + (if a.key = "href" then 1 else 0) := by
  rw [List.countP_cons]
  by_cases h : a.key = "href" <;> simp [h]

theorem lastHref_single (l : List HAttr)
    (hle : l.countP (fun a => decide (a.key = "href")) ≤ 1) :
    lastHref l "" = findHref l := by
  induction l with
  | nil => rfl
  | cons a rest ih =>
    rw [countP_cons_href] at hle
    by_cases h3 : a.key = "href"
    · have hcnt : rest.countP (fun x => decide (x.key = "href")) = 0 := by
        rw [if_pos h3] at hle
        omega
      have hno := countP_zero_no_href rest hcnt
      have hstep : lastHref (a :: rest) "" = lastHref rest a.val := by
        unfold lastHref
        rw [List.foldl_cons, if_pos h3]
      rw [hstep, lastHref_of_no rest a.val hno]
      unfold findHref
      rw [List.find?_cons_of_pos _ (by simp [h3])]
    · have hle' : rest.countP (fun x => decide (x.key = "href")) ≤ 1 := by
        rw [if_neg h3] at hle
        omega
      have hstep : lastHref (a :: rest) "" = lastHref rest "" := by
        unfold lastHref
        rw [List.foldl_cons, if_neg h3]
      rw [hstep, ih hle']
      unfold findHref
      rw [List.find?_cons_of_neg _ (by simp [h3])]

theorem anyHref_iff (l : List HAttr)
    (hle : l.countP (fun a => decide (a.key = "href")) ≤ 1) :
    (l.any (fun a => decide (a.key = "href") && decide (¬a.val = "")) = true)
      ↔ ¬(findHref l = "") := by
  induction l with
  | nil => simp [findHref]
  | cons a rest ih =>
    rw [countP_cons_href] at hle
    by_cases h3 : a.key = "href"
    · have hcnt : rest.countP (fun x => decide (x.key = "href")) = 0 := by
        rw [if_pos h3] at hle
        omega
      have hno := countP_zero_no_href rest hcnt
      have hrest : rest.any (fun a => decide (a.key = "href") && decide (¬a.val = "")) = false := by
        rw [List.any_eq_false]
        intro b hb
        simp [hno b hb]
      have hfind : findHref (a :: rest) = a.val := by
        unfold findHref
        rw [List.find?_cons_of_pos _ (by simp [h3])]
      rw [hfind]
      simp [List.any_cons, hrest, h3]
      intro x hx hkey _
      exact absurd hkey (hno x hx)
    · have hle' : rest.countP (fun x => decide (x.key = "href")) ≤ 1 := by
        rw [if_neg h3] at hle
        omega
      have hfind : findHref (a :: rest) = findHref rest := by
        unfold findHref
        rw [List.find?_cons_of_neg _ (by simp [h3])]
      rw [hfind]
      rw [List.any_cons]
      have ha : (decide (a.key = "href") && decide (¬a.val = "")) = false := by
        simp [h3]
      rw [ha]
      simpa using ih hle'

theorem nodup_keys_countP (l : List HAttr) (hk : (l.map HAttr.key).Nodup) :
    l.countP (fun a => decide (a.key = "href")) ≤ 1 := by
  have h1 : (l.map HAttr.key).count "href" ≤ 1 := List.nodup_iff_count_le_one.mp hk "href"
  have h2 : (l.map HAttr.key).count "href"
      = l.countP ((fun k => k == "href") ∘ HAttr.key) := by
    rw [List.count, List.countP_map]
  rw [h2] at h1
  have h3 : l.countP ((fun k => k == "href") ∘ HAttr.key)
      = l.countP (fun a => decide (a.key = "href")) := by
    refine List.countP_congr ?_
    intro a _
    by_cases h : a.key = "href" <;> simp [h]
  rw [h3] at h1
  exact h1

theorem codeStep_spec (pl : String → Option String) (nd : Node)
    (hk : (nd.attr.map HAttr.key).Nodup) :
    codeStep pl nd = if specFeedQualifies nd = true then pl (specHref nd) else none := by
  have hle := nodup_keys_countP nd.attr hk
  by_cases hlink : nd.data = "link"
  · have hfst : (scanAttrs nd.attr).1 = findHref nd.attr := by
      rw [show scanAttrs nd.attr = nd.attr.foldl scanF ("", 0) from rfl, scan_fst]
      exact lastHref_single nd.attr hle
    have hlt : (scanAttrs nd.attr).2 < 4 :=
      scan_snd_lt nd.attr ("", 0) (by decide)
    have hb0 : ((scanAttrs nd.attr).2).testBit 0
        = nd.attr.any (fun a => decide (a.key = "rel") && decide (a.val = "alternate")) := by
      have h := scan_snd_bit0 nd.attr ("", 0)
      simpa using h
    have hb1 : ((scanAttrs nd.attr).2).testBit 1
        = nd.attr.any (fun a => decide (a.key = "type")
            && decide (a.val = "application/rss+xml")) := by
      have h := scan_snd_bit1 nd.attr ("", 0)
      simpa using h
    have hsnd : ((scanAttrs nd.attr).2 = 3)
        ↔ (nd.attr.any (fun a => decide (a.key = "rel") && decide (a.val = "alternate")) = true ∧
           nd.attr.any (fun a => decide (a.key = "type") &&
             decide (a.val = "application/rss+xml")) = true) := by
      rw [eq_three_iff _ hlt]
      constructor
      · rintro ⟨hx0, hx1⟩
        exact ⟨by rw [← hb0]; exact hx0, by rw [← hb1]; exact hx1⟩
      · rintro ⟨hr, ht⟩
        exact ⟨by rw [hb0]; exact hr, by rw [hb1]; exact ht⟩
    unfold codeStep
    rw [if_pos hlink]
    by_cases hq : specFeedQualifies nd = true
    · rw [if_pos hq]
      unfold specFeedQualifies at hq
      simp only [Bool.and_eq_true, decide_eq_true_eq] at hq
      obtain ⟨⟨⟨_, hrel⟩, htyp⟩, hhref⟩ := hq
      have hh : ¬(findHref nd.attr = "") := by
        refine (anyHref_iff nd.attr hle).mp ?_
        have : nd.attr.any (fun a => decide (a.key = "href") && decide (¬a.val = "")) = true := by
          rw [List.any_eq_true] at hhref ⊢
          obtain ⟨a, ha, hpa⟩ := hhref
          refine ⟨a, ha, ?_⟩
          simp only [Bool.and_eq_true, decide_eq_true_eq] at hpa ⊢
          exact ⟨hpa.1, hpa.2⟩
        exact this
      rw [if_pos ⟨hsnd.mpr ⟨hrel, htyp⟩, by rw [hfst]; exact hh⟩]
      rw [hfst]
      rfl
    · rw [if_neg hq]
      by_cases hcond : (scanAttrs nd.attr).2 = 3 ∧ ¬((scanAttrs nd.attr).1 = "")
      · exfalso
        apply hq
        obtain ⟨h3, hne⟩ := hcond
        have ⟨hr, ht⟩ := hsnd.mp h3
        have hh : nd.attr.any (fun a => decide (a.key = "href") && decide (¬a.val = "")) = true := by
          refine (anyHref_iff nd.attr hle).mpr ?_
          rw [hfst] at hne
          exact hne
        unfold specFeedQualifies
        simp only [Bool.and_eq_true, decide_eq_true_eq]
        refine ⟨⟨⟨hlink, ?_⟩, ?_⟩, ?_⟩
        · simpa using hr
        · simpa using ht
        · rw [List.any_eq_true] at hh ⊢
          obtain ⟨a, ha, hpa⟩ := hh
          refine ⟨a, ha, ?_⟩
          simp only [Bool.and_eq_true, decide_eq_true_eq] at hpa ⊢
          exact ⟨hpa.1, hpa.2⟩
      · rw [if_neg hcond]
  · have hq : specFeedQualifies nd = false := by
      unfold specFeedQualifies
      simp [hlink]
    unfold codeStep
    rw [if_neg hlink, hq]
    simp

/-- C9: for a head whose elements carry pairwise-distinct attribute keys
(as the external parser guarantees), the `Feeds` list holds exactly one
entry for each head `<link>` element with `rel="alternate"`,
`type="application/rss+xml"` and a non-empty parseable `href`, in
document order, and nothing else. -/
theorem c9_feeds (parseLink : String → Option String) (head : Node)
    (hkeys : ∀ n ∈ preorder head, (n.attr.map HAttr.key).Nodup) :
    feedsOf parseLink head = specFeeds parseLink head := by
  unfold feedsOf specFeeds
  rw [iterNode_feed]
  show (preorder head).foldl (fun acc nd => (feedCb parseLink acc nd).1) [] = _
  rw [feed_fold]
  rw [List.nil_append]
  apply List.filterMap_congr
  intro nd hnd
  rw [codeStep_spec parseLink nd (hkeys nd hnd)]

/-- C9 witness: a head with one qualifying and one non-qualifying
`<link>` yields exactly the qualifying feed. -/
theorem c9_witness :
    feedsOf some exHead = specFeeds some exHead ∧
      feedsOf some exHead = ["http://example.com/feed"] :=
  ⟨c9_feeds some exHead (by decide), by rfl⟩

theorem pass2_eq_fold (m : SMap) :
    ∀ (fuel : Nat) (p : Path) (st : TextStat),
      pass2Go m st p fuel = (specChain m p fuel).foldl
        (fun best s => if best.count < s.count then s else best) st := by
  intro fuel
  induction fuel with
  | zero => intro p st; rfl
  | succ f ih =>
    intro p st
    cases hq : parentOf p with
    | none => simp [pass2Go, specChain, hq]
    | some q =>
      cases hmq : m q with
      | none => simp [pass2Go, specChain, hq, hmq]
      | some st2 =>
        simp only [pass2Go, specChain, hq, hmq]
        rw [ih q (if st.count < st2.count then st2 else st)]
        simp [List.foldl_cons]

theorem addStat_isSome_self (m : SMap) (p : Path) (w s : Nat) :
    ((addStat m p w s) p).isSome = true := by
  unfold addStat
  rw [if_pos rfl]
  cases m p <;> rfl

theorem addStat_preserve (m : SMap) (p : Path) (w s : Nat) (q : Path)
    (h : (m q).isSome = true) : ((addStat m p w s) q).isSome = true := by
  unfold addStat
  by_cases hqp : q = p
  · rw [if_pos hqp]
    cases m p <;> rfl
  · rw [if_neg hqp]
    exact h

theorem pass1Go_preserve (q : Path) :
    ∀ (f : Nat) (m : SMap) (node : Option Path) (w s : Nat),
      (m q).isSome = true → ((pass1Go m node w s f) q).isSome = true := by
  intro f
  induction f with
  | zero =>
    intro m node w s h
    cases node <;> exact h
  | succ f ih =>
    intro m node w s h
    cases node with
    | none => exact h
    | some p => exact ih _ _ _ _ (addStat_preserve m p w s q h)

theorem pass1Go_self (m : SMap) (p : Path) (w s f : Nat) (hf : 0 < f) :
    ((pass1Go m (some p) w s f) p).isSome = true := by
  cases f with
  | zero => omega
  | succ f =>
    show ((pass1Go (addStat m p w s) (parentOf p) w s f) p).isSome = true
    exact pass1Go_preserve p f _ _ _ _ (addStat_isSome_self m p w s)

theorem pass1_fold_preserve (q : Path) (l : List CChunk) :
    ∀ m : SMap, (m q).isSome = true →
      ((l.foldl (fun m ch => pass1Go m ch.block ch.words ch.sentences 3) m) q).isSome = true := by
  induction l with
  | nil => intro m h; exact h
  | cons x rest ih =>
    intro m h
    simp only [List.foldl_cons]
    exact ih _ (pass1Go_preserve q 3 m x.block _ _ h)

theorem pass1_mem (chunks : List CChunk) (ch : CChunk) (p : Path)
    (hmem : ch ∈ chunks) (hb : ch.block = some p) :
    ((pass1 chunks) p).isSome = true := by
  unfold pass1
  suffices h : ∀ (l : List CChunk) (m : SMap), ch ∈ l →
      ((l.foldl (fun m ch => pass1Go m ch.block ch.words ch.sentences 3) m) p).isSome = true by
    exact h chunks _ hmem
  intro l
  induction l with
  | nil => intro m hm; cases hm
  | cons x rest ih =>
    intro m hm
    rcases List.mem_cons.mp hm with hx | hx
    · subst hx
      simp only [List.foldl_cons]
      refine pass1_fold_preserve p rest _ ?_
      rw [hb]
      exact pass1Go_self m p _ _ 3 (by omega)
    · simp only [List.foldl_cons]
      exact ih _ hx

/-- C3: for every chunk with a block, that block has an entry in the
ancestor-stat map built by the first pass (ascending at most 3 steps per
chunk), and the stat `GetClusterStats` chooses equals the second-pass
description: start from the block's own entry, walk the chain of parents
that still have entries, and replace the current stat exactly when the
parent's count is strictly greater (ties keep the earlier stat). -/
theorem c3_cluster_stats (chunks : List CChunk) (ch : CChunk) (p : Path)
    (hmem : ch ∈ chunks) (hb : ch.block = some p) :
    ((pass1 chunks) p).isSome = true ∧
    clusterStats chunks ch = specChosen (pass1 chunks) p := by
  have hsome := pass1_mem chunks ch p hmem hb
  refine ⟨hsome, ?_⟩
  unfold clusterStats specChosen
  rw [hb]
  cases hmp : pass1 chunks p with
  | none =>
    rw [hmp] at hsome
    simp at hsome
  | some st =>
    simp only [hmp]
    rw [pass2_eq_fold (pass1 chunks) p.length p st]

/-- C3 witness: a concrete two-chunk document where the shared ancestor
(count 2) beats the block's own stat (count 1). -/
theorem c3_witness :
    ((pass1 exChunks) [0, 0]).isSome = true ∧
      clusterStats exChunks exChunk = specChosen (pass1 exChunks) [0, 0] :=
  c3_cluster_stats exChunks exChunk [0, 0] (by decide) rfl

theorem countTextKids_nil (b : Bool) (i : Nat) : countTextKids [] b i = ⟨0, 0, []⟩ := rfl

theorem countTextKids_cons (c : Node) (rest : List Node) (b : Bool) (i : Nat) :
    countTextKids (c :: rest) b i
      = ⟨(countText c b).link + (countTextKids rest b (i + 1)).link,
         (countText c b).norm + (countTextKids rest b (i + 1)).norm,
         ((countText c b).entries.map (fun e => (i :: e.1, e.2)))
           ++ (countTextKids rest b (i + 1)).entries⟩ := rfl

theorem countText_entries (t : NType) (d : String) (a : List HAttr) (ks : List Node) (b : Bool) :
    (countText (.mk t d a ks) b).entries
      = ([], (countText (.mk t d a ks) b).link, (countText (.mk t d a ks) b).norm)
          :: (countTextKids ks (b || (decide (t = .elementN) && decide (d = "a"))) 0).entries :=
  rfl

theorem countText_link (t : NType) (d : String) (a : List HAttr) (ks : List Node) (b : Bool) :
    (countText (.mk t d a ks) b).link
      = (countTextKids ks (b || (decide (t = .elementN) && decide (d = "a"))) 0).link
        + (if (b || (decide (t = .elementN) && decide (d = "a"))) = true
           then (if t = .textN then letterCount d else 0) else 0) := rfl

theorem countText_norm (t : NType) (d : String) (a : List HAttr) (ks : List Node) (b : Bool) :
    (countText (.mk t d a ks) b).norm
      = (countTextKids ks (b || (decide (t = .elementN) && decide (d = "a"))) 0).norm
        + (if (b || (decide (t = .elementN) && decide (d = "a"))) = true
           then 0 else (if t = .textN then letterCount d else 0)) := rfl

theorem lookupEntry_append (xs ys : List (Path × Nat × Nat)) (p : Path) :
    lookupEntry (xs ++ ys) p
      = match lookupEntry xs p with
        | some v => some v
        | none => lookupEntry ys p := by
  induction xs with
  | nil => simp [lookupEntry]
  | cons e rest ih =>
    by_cases he : e.1 = p
    · simp [lookupEntry, he]
    · simp [lookupEntry, he, ih]

theorem lookupEntry_map_cons (i : Nat) (es : List (Path × Nat × Nat)) (h : Nat) (q : Path) :
    lookupEntry (es.map (fun e => (i :: e.1, e.2))) (h :: q)
      = if h = i then lookupEntry es q else none := by
  induction es with
  | nil => simp [lookupEntry]
  | cons e rest ih =>
    simp only [List.map_cons, lookupEntry]
    by_cases hh : h = i
    · subst hh
      by_cases he : e.1 = q
      · rw [if_pos (by rw [he]), if_pos rfl, if_pos he]
      · rw [if_neg (by simp [he]), ih, if_pos rfl, if_pos rfl, if_neg he]
    · rw [if_neg (by simp [Ne.symm hh]), ih, if_neg hh, if_neg hh]

theorem lookupEntry_none_of_all_ne (es : List (Path × Nat × Nat)) (p : Path)
    (h : ∀ e ∈ es, ¬(e.1 = p)) : lookupEntry es p = none := by
  induction es with
  | nil => rfl
  | cons e rest ih =>
    show (if e.1 = p then some e.2 else lookupEntry rest p) = none
    rw [if_neg (h e (List.mem_cons_self e rest))]
    exact ih (fun x hx => h x (List.mem_cons_of_mem e hx))

theorem kids_entries_head (ks : List Node) (b : Bool) :
    ∀ (i : Nat), ∀ e ∈ (countTextKids ks b i).entries, ∃ j q, e.1 = j :: q ∧ i ≤ j := by
  induction ks with
  | nil =>
    intro i e he
    rw [countTextKids_nil] at he
    cases he
  | cons c rest ih =>
    intro i e he
    rw [countTextKids_cons] at he
    rcases List.mem_append.mp he with hm | hm
    · obtain ⟨e0, _, rfl⟩ := List.mem_map.mp hm
      exact ⟨i, e0.1, rfl, Nat.le_refl i⟩
    · obtain ⟨j, q, hjq, hij⟩ := ih (i + 1) e hm
      exact ⟨j, q, hjq, by omega⟩

theorem lookup_kids (ks : List Node) :
    ∀ (b : Bool) (i j : Nat) (q : Path),
      lookupEntry (countTextKids ks b i).entries ((i + j) :: q)
        = match ks[j]? with
          | some c => lookupEntry (countText c b).entries q
          | none => none := by
  induction ks with
  | nil =>
    intro b i j q
    rw [countTextKids_nil]
    simp [lookupEntry]
  | cons c rest ih =>
    intro b i j q
    rw [countTextKids_cons, lookupEntry_append]
    cases j with
    | zero =>
      rw [Nat.add_zero, lookupEntry_map_cons, if_pos rfl]
      rw [List.getElem?_cons_zero]
      cases hv : lookupEntry (countText c b).entries q with
      | some v =>
        show some v = lookupEntry (countText c b).entries q
        exact hv.symm
      | none =>
        have hnone : lookupEntry (countTextKids rest b (i + 1)).entries (i :: q) = none := by
          refine lookupEntry_none_of_all_ne _ _ ?_
          intro e he
          obtain ⟨j', q', hjq, hij⟩ := kids_entries_head rest b (i + 1) e he
          rw [hjq]
          intro hcontr
          have h1 : j' = i := (List.cons.injEq _ _ _ _ ▸ hcontr).1
          omega
        show lookupEntry (countTextKids rest b (i + 1)).entries (i :: q)
          = lookupEntry (countText c b).entries q
        rw [hv, hnone]
    | succ j' =>
      rw [show i + (j' + 1) = (i + 1) + j' from by omega]
      rw [lookupEntry_map_cons, if_neg (by omega : ¬((i + 1) + j' = i))]
      show lookupEntry (countTextKids rest b (i + 1)).entries (((i + 1) + j') :: q)
        = _
      rw [ih b (i + 1) j' q]
      rw [List.getElem?_cons_succ]

theorem lookup_root (n : Node) (b : Bool) :
    lookupEntry (countText n b).entries []
      = some ((countText n b).link, (countText n b).norm) := by
  match n with
  | .mk t d a ks =>
    rw [countText_entries]
    show (if ([] : Path) = [] then _ else _) = _
    rw [if_pos rfl]

theorem flagAt_eq_or (q : Path) :
    ∀ (c : Node) (b : Bool), flagAt c b q = (b || ancestorLink c q) := by
  induction q with
  | nil =>
    intro c b
    simp [flagAt, ancestorLink]
  | cons i q' ih =>
    intro c b
    match c with
    | .mk t d a ks =>
      show (match (Node.mk t d a ks).kids[i]? with
        | some c' => flagAt c' (b || (decide ((Node.mk t d a ks).ntype = NType.elementN)
            && decide ((Node.mk t d a ks).data = "a"))) q'
        | none => b) = _
      cases hc : (Node.mk t d a ks).kids[i]? with
      | none =>
        show b = (b || ancestorLink (.mk t d a ks) (i :: q'))
        have : ancestorLink (.mk t d a ks) (i :: q') = false := by
          show (match (Node.mk t d a ks).kids[i]? with
            | some c' => (decide ((Node.mk t d a ks).ntype = NType.elementN)
                && decide ((Node.mk t d a ks).data = "a")) || ancestorLink c' q'
            | none => false) = false
          rw [hc]
        rw [this, Bool.or_false]
      | some c' =>
        show flagAt c' (b || (decide ((Node.mk t d a ks).ntype = NType.elementN)
            && decide ((Node.mk t d a ks).data = "a"))) q'
          = (b || ancestorLink (.mk t d a ks) (i :: q'))
        rw [ih c' _]
        have : ancestorLink (.mk t d a ks) (i :: q')
            = ((decide ((Node.mk t d a ks).ntype = NType.elementN)
                && decide ((Node.mk t d a ks).data = "a")) || ancestorLink c' q') := by
          show (match (Node.mk t d a ks).kids[i]? with
            | some c'' => (decide ((Node.mk t d a ks).ntype = NType.elementN)
                && decide ((Node.mk t d a ks).data = "a")) || ancestorLink c'' q'
            | none => false) = _
          rw [hc]
        rw [this, Bool.or_assoc]

theorem lookup_main (p : Path) :
    ∀ (t : Node) (b : Bool) (s : Node), subtreeAt t p = some s →
      lookupEntry (countText t b).entries p
        = some ((countText s (flagAt t b p)).link, (countText s (flagAt t b p)).norm) := by
  induction p with
  | nil =>
    intro t b s hs
    have hts : t = s := by
      have : some t = some s := hs
      injection this
    subst hts
    exact lookup_root t b
  | cons i q ih =>
    intro t b s hs
    match t with
    | .mk ty d a ks =>
      have hk : (Node.mk ty d a ks).kids = ks := rfl
      have hsub : subtreeAt (.mk ty d a ks) (i :: q)
          = match ks[i]? with | some c => subtreeAt c q | none => none := by
        show (match (Node.mk ty d a ks).kids[i]? with
          | some c => subtreeAt c q | none => none) = _
        rw [hk]
      cases hc : ks[i]? with
      | none =>
        rw [hsub, hc] at hs
        cases hs
      | some c =>
        rw [hsub, hc] at hs
        have hflag : flagAt (.mk ty d a ks) b (i :: q)
            = flagAt c (b || (decide (ty = NType.elementN) && decide (d = "a"))) q := by
          show (match (Node.mk ty d a ks).kids[i]? with
            | some c' => flagAt c' (b || (decide ((Node.mk ty d a ks).ntype = NType.elementN)
                && decide ((Node.mk ty d a ks).data = "a"))) q
            | none => b) = _
          rw [hk, hc]
          rfl
        rw [hflag, countText_entries]
        show (if ([] : Path) = i :: q then _ else
          lookupEntry (countTextKids ks (b || (decide (ty = NType.elementN) && decide (d = "a"))) 0).entries
            (i :: q)) = _
        rw [if_neg (by simp)]
        rw [show (i :: q) = ((0 + i) :: q) from by rw [Nat.zero_add]]
        rw [lookup_kids ks _ 0 i q, hc]
        exact ih c _ s hs

theorem subtreeAt_child (p : Path) :
    ∀ (t s : Node) (j : Nat) (c : Node), subtreeAt t p = some s → s.kids[j]? = some c →
      subtreeAt t (p ++ [j]) = some c := by
  induction p with
  | nil =>
    intro t s j c hs hc
    have hts : t = s := by
      have h : some t = some s := hs
      injection h
    subst hts
    show (match t.kids[j]? with | some c' => subtreeAt c' [] | none => none) = some c
    rw [hc]
    rfl
  | cons i q ih =>
    intro t s j c hs hc
    match t with
    | .mk ty d a ks =>
      have hstep : ∀ (r : Path), subtreeAt (.mk ty d a ks) (i :: r)
          = match ks[i]? with | some c' => subtreeAt c' r | none => none := by
        intro r
        rfl
      rw [hstep] at hs
      cases hk : ks[i]? with
      | none =>
        rw [hk] at hs
        cases hs
      | some c' =>
        rw [hk] at hs
        show subtreeAt (.mk ty d a ks) (i :: (q ++ [j])) = some c
        rw [hstep, hk]
        exact ih c' s j c hs hc

theorem flagAt_child (p : Path) :
    ∀ (t s : Node) (b : Bool) (j : Nat) (c : Node), subtreeAt t p = some s →
      s.kids[j]? = some c →
      flagAt t b (p ++ [j])
        = (flagAt t b p || (decide (s.ntype = NType.elementN) && decide (s.data = "a"))) := by
  induction p with
  | nil =>
    intro t s b j c hs hc
    have hts : t = s := by
      have h : some t = some s := hs
      injection h
    subst hts
    show (match t.kids[j]? with
      | some c' => flagAt c' (b || (decide (t.ntype = NType.elementN)
          && decide (t.data = "a"))) []
      | none => b) = _
    rw [hc]
    rfl
  | cons i q ih =>
    intro t s b j c hs hc
    match t with
    | .mk ty d a ks =>
      have hsub : ∀ (r : Path), subtreeAt (.mk ty d a ks) (i :: r)
          = match ks[i]? with | some c' => subtreeAt c' r | none => none := fun r => rfl
      rw [hsub] at hs
      cases hk : ks[i]? with
      | none =>
        rw [hk] at hs
        cases hs
      | some c' =>
        rw [hk] at hs
        have hfl : ∀ (r : Path) (b' : Bool), flagAt (.mk ty d a ks) b' (i :: r)
            = (match ks[i]? with
               | some c'' => flagAt c'' (b' || (decide (ty = NType.elementN)
                   && decide (d = "a"))) r
               | none => b') := fun r b' => rfl
        show flagAt (.mk ty d a ks) b (i :: (q ++ [j])) = _
        rw [hfl, hk, hfl, hk]
        exact ih c' s _ j c hs hc

theorem kids_totals (ks : List Node) (b : Bool) :
    ∀ i, (countTextKids ks b i).link = (ks.map (fun c => (countText c b).link)).sum
      ∧ (countTextKids ks b i).norm = (ks.map (fun c => (countText c b).norm)).sum := by
  induction ks with
  | nil =>
    intro i
    rw [countTextKids_nil]
    simp
  | cons c rest ih =>
    intro i
    rw [countTextKids_cons]
    constructor
    · show (countText c b).link + (countTextKids rest b (i + 1)).link = _
      rw [(ih (i + 1)).1]
      simp
    · show (countText c b).norm + (countTextKids rest b (i + 1)).norm = _
      rw [(ih (i + 1)).2]
      simp

theorem range_map_match {α : Type} (d : α) (g : Node → α) (ks : List Node) :
    (List.range ks.length).map (fun j => match ks[j]? with | some c => g c | none => d)
      = ks.map g := by
  induction ks with
  | nil => simp
  | cons c rest ih =>
    rw [List.length_cons, List.range_succ_eq_map, List.map_cons, List.map_map]
    have h0 : (match (c :: rest)[0]? with | some x => g x | none => d) = g c := by
      rw [List.getElem?_cons_zero]
    rw [h0]
    have hcomp : ∀ j ∈ List.range rest.length,
        ((fun j => match (c :: rest)[j]? with | some x => g x | none => d) ∘ Nat.succ) j
          = (fun j => match rest[j]? with | some x => g x | none => d) j := by
      intro j hj
      simp [List.getElem?_cons_succ]
    rw [List.map_congr_left hcomp, ih, List.map_cons]

/-- C5: for every node of the walked tree, the link-density map holds an
entry whose two components decompose as the sum of the children's
entries plus — for a text node — its letter count, credited to the link
total exactly when some ancestor on the walk is an `<a>` element; both
components dominate their children's sums. -/
theorem c5_link_density (t : Node) (p : Path) (s : Node) (hs : subtreeAt t p = some s) :
    ∃ lk nm,
      lookupEntry (countText t false).entries p = some (lk, nm) ∧
      lk + nm = (kidLinkSum (countText t false).entries p s.kids.length
                  + kidNormSum (countText t false).entries p s.kids.length)
                + (if s.ntype = NType.textN then letterCount s.data else 0) ∧
      lk = kidLinkSum (countText t false).entries p s.kids.length
            + (if s.ntype = NType.textN ∧ ancestorLink t p = true
               then letterCount s.data else 0) ∧
      nm = kidNormSum (countText t false).entries p s.kids.length
            + (if s.ntype = NType.textN ∧ ¬(ancestorLink t p = true)
               then letterCount s.data else 0) ∧
      kidLinkSum (countText t false).entries p s.kids.length ≤ lk ∧
      kidNormSum (countText t false).entries p s.kids.length ≤ nm := by
  have hmain := lookup_main p t false s hs
  have hfe : flagAt t false p = ancestorLink t p := by
    rw [flagAt_eq_or]
    simp
  have hlink : kidLinkSum (countText t false).entries p s.kids.length
      = (countTextKids s.kids (flagAt t false p
          || (decide (s.ntype = NType.elementN) && decide (s.data = "a"))) 0).link := by
    unfold kidLinkSum
    have hpt : ∀ j ∈ List.range s.kids.length,
        ((lookupEntry (countText t false).entries (p ++ [j])).getD (0, 0)).1
          = (fun j => match s.kids[j]? with
             | some c => (countText c (flagAt t false p
                 || (decide (s.ntype = NType.elementN) && decide (s.data = "a")))).link
             | none => 0) j := by
      intro j hj
      have hj' := List.mem_range.mp hj
      have hc : s.kids[j]? = some (s.kids[j]) := List.getElem?_eq_getElem hj'
      have hsub := subtreeAt_child p t s j _ hs hc
      have hfl := flagAt_child p t s false j _ hs hc
      rw [lookup_main (p ++ [j]) t false _ hsub, hfl]
      show (countText (s.kids[j]) (flagAt t false p
          || (decide (s.ntype = NType.elementN) && decide (s.data = "a")))).link
        = (match s.kids[j]? with
           | some c => (countText c (flagAt t false p
               || (decide (s.ntype = NType.elementN) && decide (s.data = "a")))).link
           | none => 0)
      rw [hc]
    rw [List.map_congr_left hpt,
      range_map_match 0 (fun c => (countText c (flagAt t false p
        || (decide (s.ntype = NType.elementN) && decide (s.data = "a")))).link) s.kids]
    exact ((kids_totals s.kids _ 0).1).symm
  have hnorm : kidNormSum (countText t false).entries p s.kids.length
      = (countTextKids s.kids (flagAt t false p
          || (decide (s.ntype = NType.elementN) && decide (s.data = "a"))) 0).norm := by
    unfold kidNormSum
    have hpt : ∀ j ∈ List.range s.kids.length,
        ((lookupEntry (countText t false).entries (p ++ [j])).getD (0, 0)).2
          = (fun j => match s.kids[j]? with
             | some c => (countText c (flagAt t false p
                 || (decide (s.ntype = NType.elementN) && decide (s.data = "a")))).norm
             | none => 0) j := by
      intro j hj
      have hj' := List.mem_range.mp hj
      have hc : s.kids[j]? = some (s.kids[j]) := List.getElem?_eq_getElem hj'
      have hsub := subtreeAt_child p t s j _ hs hc
      have hfl := flagAt_child p t s false j _ hs hc
      rw [lookup_main (p ++ [j]) t false _ hsub, hfl]
      show (countText (s.kids[j]) (flagAt t false p
          || (decide (s.ntype = NType.elementN) && decide (s.data = "a")))).norm
        = (match s.kids[j]? with
           | some c => (countText c (flagAt t false p
               || (decide (s.ntype = NType.elementN) && decide (s.data = "a")))).norm
           | none => 0)
      rw [hc]
    rw [List.map_congr_left hpt,
      range_map_match 0 (fun c => (countText c (flagAt t false p
        || (decide (s.ntype = NType.elementN) && decide (s.data = "a")))).norm) s.kids]
    exact ((kids_totals s.kids _ 0).2).symm
  refine ⟨(countText s (flagAt t false p)).link, (countText s (flagAt t false p)).norm,
    hmain, ?_⟩
  obtain ⟨ty, d, a, ks⟩ := s
  simp only [Node.ntype, Node.data, Node.kids] at hlink hnorm ⊢
  rw [hlink, hnorm, countText_link, countText_norm, hfe]
  by_cases hty : ty = NType.textN
  · subst hty
    have h1 : decide (NType.textN = NType.elementN) = false := by decide
    rw [h1, Bool.false_and, Bool.or_false]
    by_cases hA : ancestorLink t p = true
    · refine ⟨?_, ?_, ?_, ?_, ?_⟩ <;> simp [hA, Nat.add_comm, Nat.add_left_comm]
    · have hA' : ancestorLink t p = false := by
        cases h : ancestorLink t p
        · rfl
        · exact absurd h hA
      refine ⟨?_, ?_, ?_, ?_, ?_⟩ <;> simp [hA', Nat.add_comm, Nat.add_left_comm]
  · refine ⟨?_, ?_, ?_, ?_, ?_⟩ <;> simp [hty, Nat.add_comm, Nat.add_left_comm]

/-- C5 witness: the text node inside the `<a>` of `exCount` has its
letters counted as link text, decomposed as the claim states. -/
theorem c5_witness :
    ∃ lk nm,
      lookupEntry (countText exCount false).entries [0, 0] = some (lk, nm) ∧
      lk + nm = (kidLinkSum (countText exCount false).entries [0, 0]
                    (Node.mk NType.textN "Hi" [] []).kids.length
                  + kidNormSum (countText exCount false).entries [0, 0]
                    (Node.mk NType.textN "Hi" [] []).kids.length)
                + (if (Node.mk NType.textN "Hi" [] []).ntype = NType.textN
                   then letterCount (Node.mk NType.textN "Hi" [] []).data else 0) ∧
      lk = kidLinkSum (countText exCount false).entries [0, 0]
              (Node.mk NType.textN "Hi" [] []).kids.length
            + (if (Node.mk NType.textN "Hi" [] []).ntype = NType.textN
                 ∧ ancestorLink exCount [0, 0] = true
               then letterCount (Node.mk NType.textN "Hi" [] []).data else 0) ∧
      nm = kidNormSum (countText exCount false).entries [0, 0]
              (Node.mk NType.textN "Hi" [] []).kids.length
            + (if (Node.mk NType.textN "Hi" [] []).ntype = NType.textN
                 ∧ ¬(ancestorLink exCount [0, 0] = true)
               then letterCount (Node.mk NType.textN "Hi" [] []).data else 0) ∧
      kidLinkSum (countText exCount false).entries [0, 0]
          (Node.mk NType.textN "Hi" [] []).kids.length ≤ lk ∧
      kidNormSum (countText exCount false).entries [0, 0]
          (Node.mk NType.textN "Hi" [] []).kids.length ≤ nm :=
  c5_link_density exCount [0, 0] (.mk NType.textN "Hi" [] []) rfl

end Newscat
